import Mathlib

/-!
Shallow embedding of the APICopilot ingestion and query pipeline.

The ingestion side (`IngestionTool` in the repository's load module) flattens a
Postman collection into endpoint items, turns them into documents, splits them
into chunks, embeds the chunk texts and writes (text, metadata, vector) records
into a LanceDB table.  The query side (`extension.ts`) embeds a user request,
runs a similarity search against the table and builds a language-model prompt.

External services (file system, JSON parser, chat model, embedding model,
text splitter, vector database) are modelled as oracle fields of an
environment record; each pipeline function returns its result together with
the ordered list of externally visible effects it performed.  JavaScript
truthiness on optional strings is modelled explicitly.
-/

namespace APICopilot

/-- JavaScript truthiness of a possibly-absent string: truthy iff present and
non-empty (absent, `null`, `undefined` and `""` are falsy). -/
def jsTruthyStr : Option String → Bool
  | some s => s ≠ ""
  | none => false

/-- `path.join` of two segments, as used by the pipeline. -/
def pathJoin (a b : String) : String := a ++ "/" ++ b

/-- The JavaScript value of a Postman url object's `host` or `path` field:
falsy (so `|| []` defaults it to the empty array), an array of segments, or a
truthy non-array value such as a non-empty string — which the Postman schema
permits, and on which the source's `.join` call throws a TypeError. -/
inductive JoinOperand where
  | falsy : JoinOperand
  | arr : List String → JoinOperand
  | nonArray : String → JoinOperand
deriving DecidableEq, Repr

/-- `(field || []).join(sep)`: falsy defaults to the empty array, an array
joins its segments, and a truthy non-array has no `join` method, so the call
throws a TypeError. -/
def jsJoin (sep : String) : JoinOperand → Except String String
  | .falsy => .ok (String.intercalate sep [])
  | .arr l => .ok (String.intercalate sep l)
  | .nonArray _ => .error "TypeError: .join is not a function"

/-- The object form a Postman `url` field can take: optional `raw` and
`protocol` strings, and `host` and `path` fields holding arbitrary
JavaScript values as far as joining is concerned. -/
structure UrlObj where
  raw : Option String
  protocol : Option String
  host : JoinOperand
  path : JoinOperand
deriving DecidableEq, Repr

/-- A Postman `url` value: `null`/`undefined`, a plain string, or an object. -/
inductive UrlData where
  | nullish : UrlData
  | str : String → UrlData
  | obj : UrlObj → UrlData
deriving DecidableEq, Repr

/-- `IngestionTool.constructUrlFromPostman`: returns `""` on nullish input and
the string itself on string input; on object input returns `raw` when truthy,
otherwise joins host with `.` and path with `/` (each defaulted to `[]` when
falsy, throwing a TypeError when truthy but not an array) and returns
`protocol://host/path` (protocol defaulting to `https`) when the joined host
is non-empty, `""` otherwise.  Throwing is modelled as `Except.error`. -/
def constructUrlFromPostman : UrlData → Except String String
  | .nullish => .ok ""
  | .str s => .ok s
  | .obj o =>
    if jsTruthyStr o.raw then .ok (o.raw.getD "")
    else
      let protocol := if jsTruthyStr o.protocol then o.protocol.getD "" else "https"
      match jsJoin "." o.host with
      | .error e => .error e
      | .ok host =>
        match jsJoin "/" o.path with
        | .error e => .error e
        | .ok path =>
          if host ≠ "" then .ok (protocol ++ "://" ++ host ++ "/" ++ path) else .ok ""

/-- The object form of a url value whose host and path fields, when present,
are arrays of segments. -/
structure ArrUrlObj where
  raw : Option String
  protocol : Option String
  host : Option (List String)
  path : Option (List String)
deriving DecidableEq, Repr

/-- The url values whose host and path fields are absent or arrays: the
subspace of `UrlData` on which `constructUrlFromPostman` cannot throw.  The
ingestion pipeline's documents are modelled over this subspace; the theorem
for the URL construction itself covers the full `UrlData` space, including
the throwing cases. -/
inductive ArrUrl where
  | nullish : ArrUrl
  | str : String → ArrUrl
  | obj : ArrUrlObj → ArrUrl
deriving DecidableEq, Repr

/-- An absent-or-array field as the JavaScript value it denotes. -/
def arrOperand : Option (List String) → JoinOperand
  | none => .falsy
  | some l => .arr l

/-- The injection of the array-only subspace into the full url value space. -/
def ArrUrl.toUrlData : ArrUrl → UrlData
  | .nullish => .nullish
  | .str s => .str s
  | .obj o => .obj ⟨o.raw, o.protocol, arrOperand o.host, arrOperand o.path⟩

/-- `constructUrlFromPostman` restricted to the array-only subspace, where it
is total: the form the ingestion pipeline uses.  `constructUrlOnArr_agrees`
proves it agrees with `constructUrlFromPostman` there. -/
def constructUrlOnArr : ArrUrl → String
  | .nullish => ""
  | .str s => s
  | .obj o =>
    if jsTruthyStr o.raw then o.raw.getD ""
    else
      let protocol := if jsTruthyStr o.protocol then o.protocol.getD "" else "https"
      let host := String.intercalate "." (o.host.getD [])
      let path := String.intercalate "/" (o.path.getD [])
      if host ≠ "" then protocol ++ "://" ++ host ++ "/" ++ path else ""

/-- A Postman request `description` field: a plain string or an object with an
optional `content` field. -/
inductive Desc where
  | str : String → Desc
  | obj : Option String → Desc
deriving DecidableEq, Repr

/-- JavaScript truthiness of a possibly-absent description: a non-empty
string or any object is truthy. -/
def descTruthy : Option Desc → Bool
  | none => false
  | some (.str s) => s ≠ ""
  | some (.obj _) => true

/-- The text the source extracts from a description field: the string itself,
or the object's `content` defaulted to `""`. -/
def descText : Option Desc → String
  | none => ""
  | some (.str s) => s
  | some (.obj c) => c.getD ""

/-- A Postman request `body` object with its optional `raw` field. -/
structure ReqBody where
  raw : Option String
deriving DecidableEq, Repr

/-- A Postman `request` object (its url over the array-only subspace the
pipeline is modelled on). -/
structure Request where
  method : Option String
  url : ArrUrl
  description : Option Desc
  body : Option ReqBody
deriving DecidableEq, Repr

/-- A Postman `response` array element. -/
structure Response where
  body : Option String
  code : Option Nat
deriving DecidableEq, Repr

/-- The payload of a Postman item, apart from its nested `item` field. -/
structure ItemData where
  name : Option String
  request : Option Request
  response : Option (List Response)
deriving DecidableEq, Repr

/-- A Postman item: its payload together with its `item` field, which is
`some children` when that field is an array (a folder) and `none` when it is
not an array (a leaf endpoint). -/
inductive PItem where
  | mk : ItemData → Option (List PItem) → PItem

/-- The payload of an item. -/
def PItem.data : PItem → ItemData
  | .mk d _ => d

/-- The `item` field of an item: `some` exactly when it is an array. -/
def PItem.item : PItem → Option (List PItem)
  | .mk _ i => i

/-- A parsed Postman collection: its optional top-level `item` array. -/
structure Postman where
  item : Option (List PItem)

/-- `IngestionTool.flattenEndpoints`: recurse into every item whose `item`
field is an array, keep every other item. -/
def flattenEndpoints : List PItem → List PItem
  | [] => []
  | .mk d none :: rest => .mk d none :: flattenEndpoints rest
  | .mk _ (some sub) :: rest => flattenEndpoints sub ++ flattenEndpoints rest

/-- Depth-first preorder listing of all items of a Postman item forest. -/
def dfsAll : List PItem → List PItem
  | [] => []
  | .mk d none :: rest => .mk d none :: dfsAll rest
  | .mk d (some sub) :: rest => .mk d (some sub) :: (dfsAll sub ++ dfsAll rest)

/-- An item is a leaf when its `item` field is not an array. -/
def isLeaf : PItem → Bool
  | .mk _ none => true
  | .mk _ (some _) => false

example : flattenEndpoints [] = [] := by simp [flattenEndpoints]

example :
    flattenEndpoints
      [.mk ⟨some "f", none, none⟩ (some [.mk ⟨some "a", none, none⟩ none]),
       .mk ⟨some "b", none, none⟩ none] =
      [.mk ⟨some "a", none, none⟩ none, .mk ⟨some "b", none, none⟩ none] := by
  simp [flattenEndpoints]

/-- Embedding vectors, kept abstract as integer lists. -/
def Vec := List Int
deriving DecidableEq, Repr

/-- Document metadata: the base fields built from an endpoint, the document
`type` tag, and the response status code for response documents. -/
structure Meta where
  name : String
  company : String
  method : String
  url : String
  type : String
  status_code : Option Nat
deriving DecidableEq, Repr

/-- A LangChain document: page content plus metadata. -/
structure Doc where
  pageContent : String
  metadata : Meta
deriving DecidableEq, Repr

/-- A record written to the LanceDB table: JavaScript `vectors[i]` can be
`undefined`, hence the optional vector. -/
structure Record where
  text : String
  metadata : Meta
  vector : Option Vec
deriving DecidableEq, Repr

/-- Externally visible effects of the ingestion pipeline, in program order. -/
inductive Effect where
  | readFile : String → Effect
  | rmDir : String → Effect
  | llmCall : String → Effect
  | embedCall : List String → Effect
  | createTableEff : String → String → List Record → Effect
deriving DecidableEq, Repr

/-- Oracles for the external world the ingestion pipeline talks to: file
system, JSON parser, text splitter, chat model, embedding model and vector
database.  Fallible operations return `Except`. -/
structure Env where
  dirExists : String → Bool
  readFile : String → Except String String
  parseJson : String → Except String Postman
  splitDocuments : List Doc → Except String (List Doc)
  llmInvoke : String → Except String String
  embedDocuments : List String → Except String (List Vec)
  createTable : String → String → List Record → Except String Unit

/-- The prompt `IngestionTool.enhanceDescription` sends to the chat model. -/
def enhancePrompt (desc name company : String) : String :=
  "API Company: " ++ company ++ "\nEndpoint: " ++ name ++
    "\nOriginal Description: " ++ desc ++
    "\n\nPlease add a single concise sentence explaining a few key business use cases."

/-- `IngestionTool.enhanceDescription`: ask the chat model to enrich a
description; on success return the trimmed reply, on failure return the
original text unchanged. -/
def enhanceDescription (env : Env) (desc name company : String) :
    String × List Effect :=
  let prompt := enhancePrompt desc name company
  match env.llmInvoke prompt with
  | .ok r => (r.trim, [.llmCall prompt])
  | .error _ => (desc, [.llmCall prompt])

/-- The trimmed endpoint name (`ep.name?.trim() || ""`). -/
def epName (ep : ItemData) : String :=
  (ep.name.map String.trim).getD ""

/-- The endpoint URL (`constructUrlFromPostman(ep.request?.url)`, over the
array-only url subspace on which it is total). -/
def epUrl (ep : ItemData) : String :=
  constructUrlOnArr ((ep.request.map Request.url).getD .nullish)

/-- The endpoint method (`ep.request?.method?.toUpperCase() || ""`). -/
def epMethod (ep : ItemData) : String :=
  ((ep.request.bind Request.method).map String.toUpper).getD ""

/-- The base metadata of an endpoint, extended with a document type tag and
optional status code. -/
def epMeta (ep : ItemData) (company ty : String) (code : Option Nat) : Meta :=
  ⟨epName ep, company, epMethod ep, epUrl ep, ty, code⟩

/-- The text `Endpoint URL: <url>` followed by the original description, as
built by `createDocumentsFromEndpoints` before enhancement. -/
def contentWithUrl (ep : ItemData) : String :=
  "Endpoint URL: " ++ epUrl ep ++ "\n\n" ++ descText (ep.request.bind Request.description)

/-- The documents one endpoint contributes: an optional enhanced description
document, an optional request-body document, and one document per response
with a truthy body. -/
def docsForEndpoint (env : Env) (ep : ItemData) (company : String) :
    List Doc × List Effect :=
  let descPart : List Doc × List Effect :=
    if descTruthy (ep.request.bind Request.description) then
      let enhanced := enhanceDescription env (contentWithUrl ep) (epName ep) company
      ([⟨enhanced.1, epMeta ep company "description" none⟩], enhanced.2)
    else ([], [])
  let bodyPart : List Doc :=
    match ep.request.bind Request.body with
    | some b => if jsTruthyStr b.raw then [⟨b.raw.getD "", epMeta ep company "body" none⟩] else []
    | none => []
  let respPart : List Doc :=
    (ep.response.getD []).filterMap fun res =>
      if jsTruthyStr res.body then
        some ⟨res.body.getD "", epMeta ep company "response" res.code⟩
      else none
  (descPart.1 ++ bodyPart ++ respPart, descPart.2)

/-- `IngestionTool.createDocumentsFromEndpoints`: documents and chat-model
effects of all endpoints, in order. -/
def createDocumentsFromEndpoints (env : Env) (endpoints : List PItem)
    (company : String) : List Doc × List Effect :=
  match endpoints with
  | [] => ([], [])
  | ep :: rest =>
    ((docsForEndpoint env ep.data company).1 ++
        (createDocumentsFromEndpoints env rest company).1,
     (docsForEndpoint env ep.data company).2 ++
        (createDocumentsFromEndpoints env rest company).2)

/-- The table rows `chunks.map((chunk, i) => ({text, metadata, vector:
vectors[i]}))`: the i-th row pairs the i-th chunk with the i-th vector
(`none` when `vectors` is too short, as JavaScript yields `undefined`). -/
def tableData : List Doc → List Vec → List Record
  | [], _ => []
  | c :: cs, vs => ⟨c.pageContent, c.metadata, vs.head?⟩ :: tableData cs vs.tail

/-- `IngestionTool.createAndSaveLanceDBStore`: remove an existing directory,
return early on an empty chunk list, otherwise embed all chunk texts and
create the table from the paired records. -/
def createAndSaveLanceDBStore (env : Env) (chunks : List Doc)
    (collectionName storagePath : String) : Except String Unit × List Effect :=
  let dbPath := pathJoin storagePath collectionName
  let rmEffs : List Effect := if env.dirExists dbPath then [.rmDir dbPath] else []
  if chunks.length = 0 then (.ok (), rmEffs)
  else
    let texts := chunks.map Doc.pageContent
    match env.embedDocuments texts with
    | .error e => (.error e, rmEffs ++ [.embedCall texts])
    | .ok vectors =>
      let data := tableData chunks vectors
      match env.createTable dbPath collectionName data with
      | .ok _ => (.ok (), rmEffs ++ [.embedCall texts, .createTableEff dbPath collectionName data])
      | .error e => (.error e, rmEffs ++ [.embedCall texts, .createTableEff dbPath collectionName data])

/-- The body of the `try` block of `IngestionTool.run`: read the file, parse
it, flatten, create documents, split, embed and save. -/
def runBody (env : Env) (postmanPath collectionName company storagePath : String) :
    Except String Unit × List Effect :=
  match env.readFile postmanPath with
  | .error e => (.error e, [.readFile postmanPath])
  | .ok rawText =>
    match env.parseJson rawText with
    | .error e => (.error e, [.readFile postmanPath])
    | .ok postmanData =>
      let endpoints := flattenEndpoints (postmanData.item.getD [])
      let docs := createDocumentsFromEndpoints env endpoints company
      match env.splitDocuments docs.1 with
      | .error e => (.error e, .readFile postmanPath :: docs.2)
      | .ok chunks =>
        let save := createAndSaveLanceDBStore env chunks collectionName storagePath
        (save.1, .readFile postmanPath :: (docs.2 ++ save.2))

/-- `IngestionTool.run`: return `true` with no effects when the store
directory already exists; otherwise run the pipeline body, returning `true`
on success and `false` when any step failed (the error is caught). -/
def run (env : Env) (postmanPath collectionName company storagePath : String) :
    Bool × List Effect :=
  let dbPath := pathJoin storagePath collectionName
  if env.dirExists dbPath then (true, [])
  else
    match runBody env postmanPath collectionName company storagePath with
    | (.ok _, effs) => (true, effs)
    | (.error _, effs) => (false, effs)

/-- `ingestPostmanCollection`: constructing the tool throws on a falsy API
key, which the surrounding try/catch turns into `false`; otherwise it
delegates to `run`. -/
def ingestPostmanCollection (env : Env)
    (postmanPath collectionName companyName openaiApiKey storagePath : String) :
    Bool × List Effect :=
  if openaiApiKey = "" then (false, [])
  else run env postmanPath collectionName companyName storagePath

/-- How an effect changes the observable world: creating a table creates the
store directory, removing the directory removes it; the other effects do not
touch the directory structure. -/
def applyEffect (env : Env) : Effect → Env
  | .createTableEff dbPath _ _ =>
    { env with dirExists := fun p => if p = dbPath then true else env.dirExists p }
  | .rmDir dbPath =>
    { env with dirExists := fun p => if p = dbPath then false else env.dirExists p }
  | _ => env

/-- Apply a list of effects in order. -/
def applyEffects (env : Env) (effs : List Effect) : Env :=
  effs.foldl applyEffect env

/-- Whether an effect is a table creation at the given directory path. -/
def isCreateTableAt (p : String) : Effect → Bool
  | .createTableEff q _ _ => q = p
  | _ => false

/-- Whether an effect is a directory removal at the given path. -/
def isRmDirAt (p : String) : Effect → Bool
  | .rmDir q => q = p
  | _ => false

/-- The table-creation effects of an effect list. -/
def createTableEffs (effs : List Effect) : List Effect :=
  effs.filter fun e => match e with | .createTableEff _ _ _ => true | _ => false

/-! ## Query side (`extension.ts`) -/

/-- A similarity-search result row as read back from the table. -/
structure SearchResult where
  text : String
  metadata : Meta
deriving DecidableEq, Repr

/-- Externally visible effects of the query flows, in program order. -/
inductive QEffect where
  | embedQ : String → QEffect
  | searchQ : String → String → Vec → Nat → QEffect
  | llmQ : String → QEffect
  | cacheWrite : String → String → QEffect
deriving DecidableEq, Repr

/-- Oracles for the external world of the query flows: configuration, the
snippet cache, the editor input boxes, the vector database and the hosted
models.  The similarity search returns the ranked rows of the table; the
`.limit(n)` of the source is the `take n` applied at the call site. -/
structure QEnv where
  apiKey : String
  cacheRead : String → Option String
  showInputBox : Option String
  quickPick : List String → Option String
  listCollections : List String
  openTable : String → String → Except String Unit
  embedQuery : String → Except String Vec
  search : String → String → Vec → List SearchResult
  llmInvoke : String → Except String String

/-- JavaScript `String.prototype.startsWith`: whether `pre` is an initial
segment of `s`. -/
def strStartsWith (s pre : String) : Bool :=
  s.data.take pre.data.length == pre.data

/-- `endpointName.replace(/[^a-zA-Z0-9]/g, "_")`. -/
def safeEndpointName (s : String) : String :=
  String.map (fun c => if c.isAlphanum then c else '_') s

/-- `getCodeCacheFilePath`: the cache file path depends only on the global
storage path, the sanitized endpoint name and the language. -/
def getCodeCacheFilePath (globalStoragePath endpointName language : String) : String :=
  pathJoin (pathJoin globalStoragePath "generated_code")
    (safeEndpointName endpointName ++ "_" ++ language ++ ".txt")

/-- The effect of the regex replace `^` then three backquotes then `[\w]*\n?`:
drop a leading markdown fence. -/
def stripLeadingFence (s : String) : String :=
  if s.startsWith "```" then
    let rest := (s.drop 3).dropWhile fun c => c.isAlphanum || c = '_'
    if rest.startsWith "\n" then rest.drop 1 else rest
  else s

/-- The effect of the regex replace `\n?` then three backquotes then `$`:
drop a trailing markdown fence. -/
def stripTrailingFence (s : String) : String :=
  if s.endsWith "```" then
    let t := s.dropRight 3
    if t.endsWith "\n" then t.dropRight 1 else t
  else s

/-- The prompt template of `generateCodeLogic` (autocomplete code
generation), interpolating only the language and the enriched user query. -/
def acPrompt (language enrichedQuery : String) : String :=
  "Your task is to be a raw code generator. Based on the provided API documentation, generate a single, complete, and executable code snippet in "
    ++ language ++ ". Your response will be directly executed as " ++ language
    ++ " code. Do NOT include any explanations, introductory text, or markdown code blocks like ```. Real User Request: \""
    ++ enrichedQuery ++ "\"\nGenerate the code now:"

/-- The prompt template of `generateRefactoredCodeLogic`, interpolating the
retrieved API context, the language, the selected code and the user
instruction. -/
def refactorPrompt (apiContextText language selectedText userInstruction : String) : String :=
  "You are an expert code refactoring assistant. Your task is to rewrite a given block of code to correctly and efficiently use an API, based on a user's instruction and the provided API documentation.\n"
    ++ "**Goal:** Your output will be a new, improved block of code that serves as a direct, drop-in replacement for the user's original selection.\n"
    ++ "**Context Provided:**\n---\n**API Documentation:**\n" ++ apiContextText
    ++ "\n---\n**User's Original Code to Refactor:**\n```" ++ language ++ "\n" ++ selectedText
    ++ "\n```\n---\n**User's Refactor Instruction:**\n\"" ++ userInstruction
    ++ "\"\n---\n**Your Task:** Based on all the context above, generate the refactored code block in "
    ++ language
    ++ ".\n**Final Output Rules:**\n- Return ONLY the refactored, executable code.\n- Do not include any explanations, introductory text, or markdown formatting.\n- The new code should be a complete, drop-in replacement for the original selection.\nGenerate the refactored code now:"

/-- `generateCodeLogic`: return the cached snippet when one exists, otherwise
embed the enriched query, search the collection's table with limit 4, and ask
the chat model with the autocomplete prompt; the computed `contextText` is
bound exactly as in the source, which never interpolates it into the
prompt. -/
def generateCodeLogic (env : QEnv)
    (globalStoragePath endpointName collectionName language : String) :
    Except String String × List QEffect :=
  let cachePath := getCodeCacheFilePath globalStoragePath endpointName language
  if jsTruthyStr (env.cacheRead cachePath) then
    (.ok ((env.cacheRead cachePath).getD ""), [])
  else if env.apiKey = "" then (.error "OpenAI API Key is not set in settings.", [])
  else
    match env.showInputBox with
    | none => (.ok "", [])
    | some userQuery =>
      let enrichedQuery :=
        if userQuery ≠ "" then endpointName ++ " " ++ userQuery else endpointName
      let dbPath := pathJoin globalStoragePath collectionName
      match env.openTable dbPath collectionName with
      | .error e => (.error e, [])
      | .ok _ =>
        match env.embedQuery enrichedQuery with
        | .error e => (.error e, [.embedQ enrichedQuery])
        | .ok queryVector =>
          let results := (env.search dbPath collectionName queryVector).take 4
          let contextDocs := results.map fun r => Doc.mk r.text r.metadata
          let effs0 : List QEffect :=
            [.embedQ enrichedQuery, .searchQ dbPath collectionName queryVector 4]
          if contextDocs.length = 0 then
            (.error ("Could not find documentation for '" ++ endpointName ++ "'."), effs0)
          else
            let contextText := String.intercalate "\n---\n" (contextDocs.map Doc.pageContent)
            let prompt := acPrompt language enrichedQuery
            match env.llmInvoke prompt with
            | .error e => (.error e, effs0 ++ [.llmQ prompt])
            | .ok content =>
              let codeSnippet := (stripTrailingFence (stripLeadingFence content.trim)).trim
              (.ok codeSnippet, effs0 ++ [.llmQ prompt, .cacheWrite cachePath codeSnippet])

/-- `generateRefactoredCodeLogic`: pick an ingested collection, embed the
instruction plus the selected code, search with limit 5, join the result
texts with the separator and interpolate them into the refactor prompt. -/
def generateRefactoredCodeLogic (env : QEnv)
    (globalStoragePath language selectedText userInstruction : String) :
    Except String String × List QEffect :=
  if env.apiKey = "" then (.error "OpenAI API Key is not set.", [])
  else
    let collectionDirs := env.listCollections.filter fun d => strStartsWith d "codepilot_"
    if collectionDirs.length = 0 then
      (.error "No API documentation has been ingested yet.", [])
    else
      match env.quickPick collectionDirs with
      | none => (.ok "", [])
      | some collectionName =>
        if collectionName = "" then (.ok "", [])
        else
          let dbPath := pathJoin globalStoragePath collectionName
          match env.openTable dbPath collectionName with
          | .error e => (.error e, [])
          | .ok _ =>
            let searchQuery := userInstruction ++ " " ++ selectedText
            match env.embedQuery searchQuery with
            | .error e => (.error e, [.embedQ searchQuery])
            | .ok queryVector =>
              let results := (env.search dbPath collectionName queryVector).take 5
              let apiContextText :=
                String.intercalate "\n---\n" (results.map SearchResult.text)
              let prompt := refactorPrompt apiContextText language selectedText userInstruction
              let effs0 : List QEffect :=
                [.embedQ searchQuery, .searchQ dbPath collectionName queryVector 5]
              match env.llmInvoke prompt with
              | .error e => (.error e, effs0 ++ [.llmQ prompt])
              | .ok content =>
                (.ok ((stripTrailingFence (stripLeadingFence content.trim)).trim),
                 effs0 ++ [.llmQ prompt])

/-- The prompts sent to the chat model among a list of query effects. -/
def llmPrompts (effs : List QEffect) : List String :=
  effs.filterMap fun e => match e with | .llmQ p => some p | _ => none

/-! ## Theorems -/

/-- C1: for every Postman items array, `flattenEndpoints` returns exactly the
leaf items (those whose `item` field is not an array) in depth-first
left-to-right order — it equals the depth-first preorder listing of all
items filtered to leaves — and no folder node appears in the output. -/
theorem flattenEndpoints_dfs_leaves (items : List PItem) :
    flattenEndpoints items = (dfsAll items).filter isLeaf ∧
      (flattenEndpoints items).all isLeaf = true := by
  have h : ∀ l, flattenEndpoints l = (dfsAll l).filter isLeaf := by
    intro l
    induction l using flattenEndpoints.induct with
    | case1 => simp [flattenEndpoints, dfsAll]
    | case2 d rest ih => simp [flattenEndpoints, dfsAll, isLeaf, ih]
    | case3 d sub rest ih1 ih2 =>
      simp [flattenEndpoints, dfsAll, isLeaf, List.filter_append, ih1, ih2]
  refine ⟨h items, ?_⟩
  rw [h items]
  simp only [List.all_eq_true]
  intro x hx
  exact (List.mem_filter.mp hx).2

/-- Whether joining the field throws: a truthy non-array value. -/
def joinThrows : JoinOperand → Bool
  | .nonArray _ => true
  | _ => false

/-- The URL construction as the amended claim describes it: the input itself
for a string, `raw` for an object with a truthy `raw`, a TypeError when the
host or path field is a truthy non-array, otherwise the formatted
protocol/host/path URL when the joined host is non-empty, and `""` in all
other cases including nullish input. -/
def constructUrlClaim : UrlData → Except String String
  | .nullish => .ok ""
  | .str s => .ok s
  | .obj o =>
    if jsTruthyStr o.raw then .ok (o.raw.getD "")
    else if joinThrows o.host || joinThrows o.path then
      .error "TypeError: .join is not a function"
    else
      let host := match o.host with | .arr l => String.intercalate "." l | _ => ""
      let path := match o.path with | .arr l => String.intercalate "/" l | _ => ""
      if host ≠ "" then
        .ok ((if jsTruthyStr o.protocol then o.protocol.getD "" else "https")
          ++ "://" ++ host ++ "/" ++ path)
      else .ok ""

/-- Joining an empty segment list yields the empty string. -/
lemma intercalate_nil (s : String) : String.intercalate s [] = "" := rfl

/-- C8 counterexample: `constructUrlFromPostman` is not total — on an object
whose host (or path) field is a truthy non-array, such as the plain string
the Postman schema permits, the `.join` call throws a TypeError instead of
returning the empty string or a formatted URL. -/
theorem constructUrl_throws_on_string_host :
    constructUrlFromPostman (.obj ⟨none, none, .nonArray "api.acme.com", .falsy⟩)
      = .error "TypeError: .join is not a function" ∧
    constructUrlFromPostman
        (.obj ⟨none, none, .arr ["api", "acme", "com"], .nonArray "v1/orders"⟩)
      = .error "TypeError: .join is not a function" :=
  ⟨rfl, rfl⟩

/-- C8 (amended): `constructUrlFromPostman` matches the claimed case analysis
on every input, including the throwing cases: the string input itself; `raw`
when the object's `raw` is truthy; a TypeError when the host or path field is
a truthy non-array; the formatted URL (protocol defaulting to `https`, host
joined with `.`, path joined with `/`) when the joined host is non-empty; and
the empty string in all other cases, including nullish input. -/
theorem constructUrlFromPostman_cases (u : UrlData) :
    constructUrlFromPostman u = constructUrlClaim u := by
  cases u with
  | nullish => rfl
  | str s => rfl
  | obj o =>
    rcases o with ⟨raw, protocol, host, path⟩
    by_cases hr : jsTruthyStr raw = true
    · simp [constructUrlFromPostman, constructUrlClaim, hr]
    · cases host <;> cases path <;>
        (try simp [constructUrlFromPostman, constructUrlClaim, jsJoin, joinThrows, hr,
          intercalate_nil, apply_ite]) <;>
        (try (split <;> intro hc <;> simp_all))

/-- On the array-only subspace the URL construction never throws and agrees
with the total restriction the pipeline uses. -/
lemma constructUrlOnArr_agrees (u : ArrUrl) :
    constructUrlFromPostman u.toUrlData = .ok (constructUrlOnArr u) := by
  cases u with
  | nullish => rfl
  | str s => rfl
  | obj o =>
    rcases o with ⟨raw, protocol, host, path⟩
    by_cases hr : jsTruthyStr raw = true <;>
      cases host <;> cases path <;>
        (try simp [ArrUrl.toUrlData, arrOperand, constructUrlFromPostman,
          constructUrlOnArr, jsJoin, hr, intercalate_nil, apply_ite]) <;>
        (try (split <;> intro hc <;> simp_all))

/-- When the embedding output has one vector per chunk, the rows pair the
i-th chunk with the i-th vector: `tableData` is the map over the zip. -/
lemma tableData_eq_zip :
    ∀ (chunks : List Doc) (vectors : List Vec), vectors.length = chunks.length →
      tableData chunks vectors =
        (chunks.zip vectors).map fun p => ⟨p.1.pageContent, p.1.metadata, some p.2⟩ := by
  intro chunks
  induction chunks with
  | nil => intro vectors _; simp [tableData]
  | cons c cs ih =>
    intro vectors hlen
    cases vectors with
    | nil => simp at hlen
    | cons v vs =>
      simp only [List.length_cons, Nat.succ.injEq] at hlen
      simp [tableData, List.zip_cons_cons, ih vs hlen]

/-- C2: for every non-empty chunk list whose texts embed successfully into
index-aligned vectors, `createAndSaveLanceDBStore` performs exactly one table
creation, whose rows are the (text, metadata, vector) triples pairing each
chunk's pageContent and metadata with the embedding of that same chunk's
text, one row per chunk. -/
theorem createAndSave_one_record_per_chunk (env : Env) (chunks : List Doc)
    (collectionName storagePath : String) (vectors : List Vec)
    (hne : chunks ≠ [])
    (hemb : env.embedDocuments (chunks.map Doc.pageContent) = .ok vectors)
    (hlen : vectors.length = chunks.length) :
    createTableEffs (createAndSaveLanceDBStore env chunks collectionName storagePath).2 =
      [.createTableEff (pathJoin storagePath collectionName) collectionName
        ((chunks.zip vectors).map fun p => ⟨p.1.pageContent, p.1.metadata, some p.2⟩)] ∧
      ((chunks.zip vectors).map
          fun p => (⟨p.1.pageContent, p.1.metadata, some p.2⟩ : Record)).length =
        chunks.length := by
  have hlen0 : ¬ chunks.length = 0 := by simpa using hne
  constructor
  · have key : createTableEffs
        (createAndSaveLanceDBStore env chunks collectionName storagePath).2 =
        [.createTableEff (pathJoin storagePath collectionName) collectionName
          (tableData chunks vectors)] := by
      rcases hd : env.dirExists (pathJoin storagePath collectionName) <;>
        rcases h : env.createTable (pathJoin storagePath collectionName) collectionName
            (tableData chunks vectors) with v | e <;>
          simp [createAndSaveLanceDBStore, createTableEffs, hemb, hlen0, hd, h]
    rw [key, tableData_eq_zip chunks vectors hlen]
  · simp [List.length_zip, hlen]

/-- A concrete environment whose pipeline succeeds end to end on a
collection with no items, and whose chat model is down. -/
def env0 : Env :=
  ⟨fun _ => false, fun _ => .ok "raw", fun _ => .ok ⟨some []⟩, fun _ => .ok [],
   fun _ => .error "llm down", fun _ => .ok [], fun _ _ _ => .ok ()⟩

/-- A concrete environment that embeds two chunks into two vectors. -/
def env2 : Env :=
  ⟨fun _ => false, fun _ => .ok "raw", fun _ => .ok ⟨some []⟩, fun _ => .ok [],
   fun _ => .error "llm down", fun _ => .ok [[1], [2]], fun _ _ _ => .ok ()⟩

/-- Two concrete chunks. -/
def chunks2 : List Doc :=
  [⟨"alpha", ⟨"a", "Acme", "GET", "https://a.b/c", "body", none⟩⟩,
   ⟨"beta", ⟨"b", "Acme", "POST", "https://a.b/d", "response", some 200⟩⟩]

/-- Witness for C2 at a concrete two-chunk store creation. -/
theorem createAndSave_one_record_per_chunk_witness :
    createTableEffs (createAndSaveLanceDBStore env2 chunks2 "coll" "store").2 =
      [.createTableEff (pathJoin "store" "coll") "coll"
        ((chunks2.zip [[1], [2]]).map fun p => ⟨p.1.pageContent, p.1.metadata, some p.2⟩)] ∧
      ((chunks2.zip ([[1], [2]] : List Vec)).map
          fun p => (⟨p.1.pageContent, p.1.metadata, some p.2⟩ : Record)).length =
        chunks2.length :=
  createAndSave_one_record_per_chunk env2 chunks2 "coll" "store" [[1], [2]]
    (by decide) rfl rfl

/-- C4: `run` and `ingestPostmanCollection` are total (every error of a
pipeline step is caught): `run` returns `true` exactly when the store
directory already exists or every pipeline step succeeds, and `false`
otherwise; `ingestPostmanCollection` additionally returns `false` when the
API key is falsy (the constructor throw is caught). -/
theorem run_and_ingest_true_iff (env : Env) (pp cn comp key sp : String) :
    ((run env pp cn comp sp).1 = true ↔
      (env.dirExists (pathJoin sp cn) = true ∨
        (runBody env pp cn comp sp).1.isOk = true)) ∧
    ((ingestPostmanCollection env pp cn comp key sp).1 = true ↔
      (key ≠ "" ∧ (env.dirExists (pathJoin sp cn) = true ∨
        (runBody env pp cn comp sp).1.isOk = true))) := by
  have hrun : (run env pp cn comp sp).1 = true ↔
      (env.dirExists (pathJoin sp cn) = true ∨
        (runBody env pp cn comp sp).1.isOk = true) := by
    unfold run
    rcases hd : env.dirExists (pathJoin sp cn) <;>
      rcases hb : runBody env pp cn comp sp with ⟨r, effs⟩ <;>
        rcases r with e | v <;> simp [hb, hd, Except.isOk, Except.toBool]
  refine ⟨hrun, ?_⟩
  unfold ingestPostmanCollection
  by_cases hk : key = ""
  · simp [hk]
  · simp [hk, hrun]

/-- `enhanceDescription` performs exactly one chat-model call, with the
enhancement prompt, whether or not the model succeeds. -/
lemma enhanceDescription_effects (env : Env) (desc name company : String) :
    (enhanceDescription env desc name company).2 =
      [.llmCall (enhancePrompt desc name company)] := by
  cases h : env.llmInvoke (enhancePrompt desc name company) <;>
    simp [enhanceDescription, h]

/-- The effects of one endpoint's documents: one chat-model call when the
description is truthy, none otherwise. -/
lemma docsForEndpoint_effects (env : Env) (ep : ItemData) (company : String) :
    (docsForEndpoint env ep company).2 =
      if descTruthy (ep.request.bind Request.description) then
        [.llmCall (enhancePrompt (contentWithUrl ep) (epName ep) company)]
      else [] := by
  cases hdt : descTruthy (ep.request.bind Request.description) <;>
    simp [docsForEndpoint, hdt, enhanceDescription_effects]

/-- Every effect of `createDocumentsFromEndpoints` is a chat-model call. -/
lemma createDocs_effects_are_llmCalls (env : Env) :
    ∀ (eps : List PItem) (company : String) (e : Effect),
      e ∈ (createDocumentsFromEndpoints env eps company).2 → ∃ p, e = .llmCall p := by
  intro eps
  induction eps with
  | nil => intro company e he; simp [createDocumentsFromEndpoints] at he
  | cons ep rest ih =>
    intro company e he
    simp only [createDocumentsFromEndpoints, List.mem_append] at he
    rcases he with he | he
    · rw [docsForEndpoint_effects] at he
      cases hdt : descTruthy (ep.data.request.bind Request.description) <;>
        simp [hdt] at he
      exact ⟨_, he⟩
    · exact ih company e he

/-- C9: when the splitter yields zero chunks after a successful read and
parse, `createAndSaveLanceDBStore` returns without any table creation and
`run` still returns `true`, so ingestion reports success although no store
was created. -/
theorem run_true_on_zero_chunks (env : Env) (pp cn comp sp raw : String)
    (pd : Postman)
    (h0 : env.dirExists (pathJoin sp cn) = false)
    (h1 : env.readFile pp = .ok raw)
    (h2 : env.parseJson raw = .ok pd)
    (h3 : env.splitDocuments
        (createDocumentsFromEndpoints env (flattenEndpoints (pd.item.getD [])) comp).1 =
      .ok []) :
    (run env pp cn comp sp).1 = true ∧
    createTableEffs (run env pp cn comp sp).2 = [] ∧
    createAndSaveLanceDBStore env [] cn sp = (.ok (), []) := by
  have hsave : createAndSaveLanceDBStore env [] cn sp = (.ok (), []) := by
    simp [createAndSaveLanceDBStore, h0]
  have hbody : runBody env pp cn comp sp =
      (.ok (), .readFile pp ::
        ((createDocumentsFromEndpoints env (flattenEndpoints (pd.item.getD [])) comp).2
          ++ [])) := by
    unfold runBody
    simp only [h1, h2, h3, hsave]
  have heffs : (run env pp cn comp sp).2 = .readFile pp ::
      ((createDocumentsFromEndpoints env (flattenEndpoints (pd.item.getD [])) comp).2
        ++ []) := by
    unfold run
    rw [if_neg (by simp [h0]), hbody]
  have hres : (run env pp cn comp sp).1 = true := by
    unfold run
    rw [if_neg (by simp [h0]), hbody]
  refine ⟨hres, ?_, hsave⟩
  rw [heffs]
  have hnone : ∀ e ∈ (createDocumentsFromEndpoints env
      (flattenEndpoints (pd.item.getD [])) comp).2,
      (match e with | Effect.createTableEff _ _ _ => true | _ => false) = false := by
    intro e he
    rcases createDocs_effects_are_llmCalls env _ comp e he with ⟨p, rfl⟩
    rfl
  have hfil : (createDocumentsFromEndpoints env
      (flattenEndpoints (pd.item.getD [])) comp).2.filter
      (fun e => match e with | Effect.createTableEff _ _ _ => true | _ => false) = [] :=
    List.filter_eq_nil_iff.mpr (by intro e he; simp [hnone e he])
  simp [createTableEffs, List.filter_cons, hfil]

/-- Witness for C9: the concrete environment `env0` parses to a collection
with no items, so the splitter yields zero chunks, yet `run` reports
success and creates no table. -/
theorem run_true_on_zero_chunks_witness :
    (run env0 "p.json" "coll" "Acme" "store").1 = true ∧
    createTableEffs (run env0 "p.json" "coll" "Acme" "store").2 = [] ∧
    createAndSaveLanceDBStore env0 [] "coll" "store" = (.ok (), []) :=
  run_true_on_zero_chunks env0 "p.json" "coll" "Acme" "store" "raw" ⟨some []⟩
    rfl rfl rfl rfl

/-- Applying an effect list that contains a table creation at `p` and no
directory removal at `p` leaves the directory at `p` existing (also when it
already existed). -/
lemma applyEffects_dirExists_true (p : String) :
    ∀ (effs : List Effect) (env : Env),
      (∀ e ∈ effs, isRmDirAt p e = false) →
      (effs.any (isCreateTableAt p) = true ∨ env.dirExists p = true) →
      (applyEffects env effs).dirExists p = true := by
  intro effs
  induction effs with
  | nil =>
    intro env _ h
    rcases h with h | h
    · simp at h
    · simpa [applyEffects] using h
  | cons e es ih =>
    intro env hrm h
    have hrm' : ∀ x ∈ es, isRmDirAt p x = false :=
      fun x hx => hrm x (List.mem_cons_of_mem e hx)
    have step : applyEffects env (e :: es) = applyEffects (applyEffect env e) es := rfl
    rw [step]
    apply ih (applyEffect env e) hrm'
    rcases h with h | h
    · simp only [List.any_cons, Bool.or_eq_true] at h
      rcases h with h | h
      · right
        cases e with
        | createTableEff q n d =>
          simp only [isCreateTableAt, decide_eq_true_eq] at h
          simp [applyEffect, h]
        | rmDir q => simp [isCreateTableAt] at h
        | readFile q => simp [isCreateTableAt] at h
        | llmCall q => simp [isCreateTableAt] at h
        | embedCall q => simp [isCreateTableAt] at h
      · left; exact h
    · right
      have hrme : isRmDirAt p e = false := hrm e (List.mem_cons_self e es)
      cases e with
      | createTableEff q n d => by_cases hq : p = q <;> simp [applyEffect, hq, h]
      | rmDir q =>
        have hq : ¬ p = q := by
          intro hpq
          simp [isRmDirAt, hpq] at hrme
        simp [applyEffect, hq, h]
      | readFile q => simpa [applyEffect] using h
      | llmCall q => simpa [applyEffect] using h
      | embedCall q => simpa [applyEffect] using h

/-- When the store directory does not exist, `createAndSaveLanceDBStore`
never removes it (the overwrite branch is not taken). -/
lemma createAndSave_no_rmdir (env : Env) (chunks : List Doc) (cn sp : String)
    (hd : env.dirExists (pathJoin sp cn) = false) :
    ∀ e ∈ (createAndSaveLanceDBStore env chunks cn sp).2,
      isRmDirAt (pathJoin sp cn) e = false := by
  intro e he
  unfold createAndSaveLanceDBStore at he
  simp only [hd, Bool.false_eq_true, ite_false] at he
  by_cases hl : chunks.length = 0
  · simp [hl] at he
  · simp only [hl, ite_false, List.nil_append] at he
    cases hv : env.embedDocuments (chunks.map Doc.pageContent) with
    | error m =>
      simp only [hv, List.mem_singleton] at he
      subst he; rfl
    | ok vectors =>
      cases hc : env.createTable (pathJoin sp cn) cn (tableData chunks vectors) with
      | ok u =>
        simp only [hv, hc, List.mem_cons, List.not_mem_nil, or_false] at he
        rcases he with he | he <;> (subst he; rfl)
      | error m =>
        simp only [hv, hc, List.mem_cons, List.not_mem_nil, or_false] at he
        rcases he with he | he <;> (subst he; rfl)

/-- `run` never removes the store directory: it either returns early because
the directory exists, or the overwrite branch is unreachable because the
directory did not exist. -/
lemma run_no_rmdir (env : Env) (pp cn comp sp : String) :
    ∀ e ∈ (run env pp cn comp sp).2, isRmDirAt (pathJoin sp cn) e = false := by
  intro e he
  unfold run at he
  by_cases hd : env.dirExists (pathJoin sp cn) = true
  · simp [hd] at he
  · have hd' : env.dirExists (pathJoin sp cn) = false := by
      simpa using hd
    rw [if_neg (by simp [hd'])] at he
    have hbody : ∀ x ∈ (runBody env pp cn comp sp).2,
        isRmDirAt (pathJoin sp cn) x = false := by
      intro x hx
      unfold runBody at hx
      cases h1 : env.readFile pp with
      | error m =>
        simp only [h1, List.mem_singleton] at hx
        subst hx; rfl
      | ok raw =>
        cases h2 : env.parseJson raw with
        | error m =>
          simp only [h1, h2, List.mem_singleton] at hx
          subst hx; rfl
        | ok pd =>
          simp only [h1, h2] at hx
          cases h3 : env.splitDocuments
              (createDocumentsFromEndpoints env
                (flattenEndpoints (pd.item.getD [])) comp).1 with
          | error m =>
            simp only [h3, List.mem_cons] at hx
            rcases hx with hx | hx
            · subst hx; rfl
            · rcases createDocs_effects_are_llmCalls env _ comp x hx with ⟨q, rfl⟩
              rfl
          | ok chunks =>
            simp only [h3, List.mem_cons, List.mem_append] at hx
            rcases hx with hx | hx | hx
            · subst hx; rfl
            · rcases createDocs_effects_are_llmCalls env _ comp x hx with ⟨q, rfl⟩
              rfl
            · exact createAndSave_no_rmdir env chunks cn sp hd' x hx
    rcases hb : runBody env pp cn comp sp with ⟨r, effs⟩
    rcases r with m | v <;> simp only [hb] at he <;>
      exact hbody e (by rw [hb]; exact he)

/-- C3 (amended): when the store directory already exists `run` returns
`true` immediately with no effects; and a second run after a first run that
actually created the table is a no-op returning `true`.  (When the first run
created no table — zero chunks — no store exists and the second run is not a
no-op.) -/
theorem run_noop_when_store_exists (env : Env) (pp cn comp sp : String) :
    (env.dirExists (pathJoin sp cn) = true → run env pp cn comp sp = (true, [])) ∧
    ((run env pp cn comp sp).2.any (isCreateTableAt (pathJoin sp cn)) = true →
      run (applyEffects env (run env pp cn comp sp).2) pp cn comp sp = (true, [])) := by
  have h1 : ∀ env' : Env, env'.dirExists (pathJoin sp cn) = true →
      run env' pp cn comp sp = (true, []) := by
    intro env' h
    unfold run
    simp [h]
  constructor
  · exact h1 env
  · intro hct
    exact h1 _ (applyEffects_dirExists_true (pathJoin sp cn) (run env pp cn comp sp).2 env
      (run_no_rmdir env pp cn comp sp) (Or.inl hct))

/-- C3 counterexample: with `env0` the pipeline succeeds with zero chunks, so
the first run returns `true` without creating the store; the second run with
the same arguments re-reads the collection file — its effect list is
non-empty, so it is not a no-op, refuting the claim's consequence for every
successful first run. -/
theorem run_second_run_not_noop :
    (run env0 "p.json" "coll" "Acme" "store").1 = true ∧
    (run (applyEffects env0 (run env0 "p.json" "coll" "Acme" "store").2)
        "p.json" "coll" "Acme" "store").2 ≠ [] := by
  have hfirst : run env0 "p.json" "coll" "Acme" "store" = (true, [.readFile "p.json"]) := by
    simp [run, runBody, env0, createDocumentsFromEndpoints, flattenEndpoints,
      createAndSaveLanceDBStore, pathJoin]
  have happ : applyEffects env0 [Effect.readFile "p.json"] = env0 := by
    simp [applyEffects, applyEffect]
  constructor
  · rw [hfirst]
  · rw [hfirst, happ, hfirst]
    simp

/-- The type tag of the metadata built by `epMeta` is its `ty` argument. -/
@[simp] lemma epMeta_type (ep : ItemData) (company ty : String) (code : Option Nat) :
    (epMeta ep company ty code).type = ty := rfl

/-- The description-typed documents an endpoint contributes: one when the
description field is truthy (carrying the enhancement result), none
otherwise. -/
lemma docsForEndpoint_desc_filter (env : Env) (ep : ItemData) (company : String) :
    (docsForEndpoint env ep company).1.filter
        (fun d => d.metadata.type == "description") =
      if descTruthy (ep.request.bind Request.description) then
        [⟨(enhanceDescription env (contentWithUrl ep) (epName ep) company).1,
          epMeta ep company "description" none⟩]
      else [] := by
  have hbody : (match ep.request.bind Request.body with
      | some b => if jsTruthyStr b.raw then
          [(⟨b.raw.getD "", epMeta ep company "body" none⟩ : Doc)] else []
      | none => []).filter (fun (d : Doc) => d.metadata.type == "description") = [] := by
    cases hb : ep.request.bind Request.body with
    | none => rfl
    | some b => cases hr : jsTruthyStr b.raw <;> simp [hr, epMeta]
  have hresp : ((ep.response.getD []).filterMap fun res =>
      if jsTruthyStr res.body then
        some (⟨res.body.getD "", epMeta ep company "response" res.code⟩ : Doc)
      else none).filter (fun (d : Doc) => d.metadata.type == "description") = [] := by
    apply List.filter_eq_nil_iff.mpr
    intro d hd
    rcases List.mem_filterMap.mp hd with ⟨res, _, hres⟩
    by_cases ht : jsTruthyStr res.body = true
    · simp only [ht, ite_true, Option.some.injEq] at hres
      subst hres
      simp [epMeta]
    · simp [ht] at hres
  cases hdt : descTruthy (ep.request.bind Request.description) with
  | false => simp [docsForEndpoint, hdt, List.filter_append, hbody, hresp]
  | true => simp [docsForEndpoint, hdt, List.filter_append, hbody, hresp]

/-- C5 (amended): `createDocumentsFromEndpoints` creates a description-typed
document for an endpoint iff the endpoint's `request.description` is truthy
(a non-empty string or an object; a present but empty string yields none);
and when the chat-model enhancement call fails, that document's pageContent
is the unenhanced text — `Endpoint URL: <url>` followed by the original
description — rather than the ingestion failing. -/
theorem description_doc_iff_truthy (env : Env) (ep : ItemData) (company : String) :
    (((createDocumentsFromEndpoints env [.mk ep none] company).1.filter
        (fun d => d.metadata.type == "description")).length = 1 ↔
      descTruthy (ep.request.bind Request.description) = true) ∧
    (∀ msg, env.llmInvoke (enhancePrompt (contentWithUrl ep) (epName ep) company)
        = .error msg →
      descTruthy (ep.request.bind Request.description) = true →
      (createDocumentsFromEndpoints env [.mk ep none] company).1.filter
          (fun d => d.metadata.type == "description") =
        [⟨contentWithUrl ep, epMeta ep company "description" none⟩]) := by
  have hsingle : (createDocumentsFromEndpoints env [.mk ep none] company).1 =
      (docsForEndpoint env ep company).1 := by
    simp [createDocumentsFromEndpoints, PItem.data]
  constructor
  · rw [hsingle, docsForEndpoint_desc_filter]
    cases hdt : descTruthy (ep.request.bind Request.description) <;> simp
  · intro msg hmsg hdt
    rw [hsingle, docsForEndpoint_desc_filter, hdt]
    simp [enhanceDescription, hmsg]

/-- The endpoint whose request carries a present but empty-string
description. -/
def epEmptyDesc : ItemData :=
  ⟨some "Create Order",
   some ⟨some "post", .str "https://api.acme.com/orders", some (.str ""), none⟩,
   none⟩

/-- C5 counterexample: on `epEmptyDesc` the `request.description` field is
present, yet `createDocumentsFromEndpoints` creates no description-typed
document for it — the source tests JavaScript truthiness and the empty
string is falsy, so "present" does not suffice. -/
theorem description_present_but_no_doc :
    (epEmptyDesc.request.bind Request.description).isSome = true ∧
    (createDocumentsFromEndpoints env0 [.mk epEmptyDesc none] "Acme").1.filter
      (fun d => d.metadata.type == "description") = [] := by
  constructor
  · rfl
  · rfl

/-- Witness for C5 (amended): a concrete endpoint with the truthy description
"hello", under the concrete environment `env0` whose chat model is down,
yields exactly the unenhanced description document. -/
theorem description_doc_iff_truthy_witness :
    (createDocumentsFromEndpoints env0
        [.mk ⟨some "Create Order",
          some ⟨some "post", .str "https://api.acme.com/orders", some (.str "hello"), none⟩,
          none⟩ none] "Acme").1.filter
        (fun d => d.metadata.type == "description") =
      [⟨contentWithUrl ⟨some "Create Order",
          some ⟨some "post", .str "https://api.acme.com/orders", some (.str "hello"), none⟩,
          none⟩,
        epMeta ⟨some "Create Order",
          some ⟨some "post", .str "https://api.acme.com/orders", some (.str "hello"), none⟩,
          none⟩ "Acme" "description" none⟩] :=
  (description_doc_iff_truthy env0
    ⟨some "Create Order",
      some ⟨some "post", .str "https://api.acme.com/orders", some (.str "hello"), none⟩,
      none⟩ "Acme").2 "llm down" rfl rfl

/-- C10: the generated-code cache is keyed only by the sanitized endpoint
name and the language — `getCodeCacheFilePath` takes no collection — so a
cache hit returns the cached snippet unchanged with no embedding, search or
model effects, whatever collection the call names. -/
theorem cached_code_ignores_collection (env : QEnv)
    (globalStoragePath endpointName language collA collB code : String)
    (hc : env.cacheRead (getCodeCacheFilePath globalStoragePath endpointName language)
      = some code)
    (hne : code ≠ "") :
    generateCodeLogic env globalStoragePath endpointName collA language
      = (.ok code, []) ∧
    generateCodeLogic env globalStoragePath endpointName collB language
      = (.ok code, []) := by
  have h : ∀ coll, generateCodeLogic env globalStoragePath endpointName coll language
      = (.ok code, []) := by
    intro coll
    unfold generateCodeLogic
    simp only [hc]
    simp [jsTruthyStr, hne]
  exact ⟨h collA, h collB⟩

/-- A concrete query environment whose cache holds "CACHED" for every path
and whose remote services are all down. -/
def qenvCache : QEnv :=
  ⟨"key", fun _ => some "CACHED", none, fun _ => none, [], fun _ _ => .error "down",
   fun _ => .error "down", fun _ _ _ => [], fun _ => .error "down"⟩

/-- Witness for C10: under `qenvCache` the cached snippet is returned with no
effects for two different collection names. -/
theorem cached_code_ignores_collection_witness :
    generateCodeLogic qenvCache "gs" "Create Order" "codepilot_a" "python"
      = (.ok "CACHED", []) ∧
    generateCodeLogic qenvCache "gs" "Create Order" "codepilot_b" "python"
      = (.ok "CACHED", []) :=
  cached_code_ignores_collection qenvCache "gs" "Create Order" "python"
    "codepilot_a" "codepilot_b" "CACHED" rfl (by decide)

/-- A metadata row used by the concrete query environments. -/
def qmeta : Meta :=
  ⟨"Create Order", "Acme", "POST", "https://api.acme.com/orders", "description", none⟩

/-- A concrete query environment: cache miss, API key set, the user typed
"with retries", one ingested collection, and a similarity search returning
the rows ALPHA and BETA; the chat model errors after receiving its prompt. -/
def qenvA : QEnv :=
  ⟨"key", fun _ => none, some "with retries", fun l => l.head?, ["codepilot_acme"],
   fun _ _ => .ok (), fun _ => .ok [1],
   fun _ _ _ => [⟨"ALPHA", qmeta⟩, ⟨"BETA", qmeta⟩], fun _ => .error "model down"⟩

/-- The same query environment but with a search returning the single row
GAMMA. -/
def qenvB : QEnv :=
  ⟨"key", fun _ => none, some "with retries", fun l => l.head?, ["codepilot_acme"],
   fun _ _ => .ok (), fun _ => .ok [1],
   fun _ _ _ => [⟨"GAMMA", qmeta⟩], fun _ => .error "model down"⟩

set_option maxRecDepth 100000 in
/-- C6 (code bug, autocomplete half): the prompt `generateCodeLogic` sends to
the chat model is the same under two environments whose similarity searches
return different documents — the joined documentation context is computed but
never interpolated into the prompt, which depends only on the language and
the enriched query — while the `generateRefactoredCodeLogic` prompt does
include the joined context and therefore differs between the same two
environments. -/
theorem generateCode_prompt_omits_context :
    llmPrompts (generateCodeLogic qenvA "gs" "Create Order" "codepilot_acme" "python").2 =
      llmPrompts (generateCodeLogic qenvB "gs" "Create Order" "codepilot_acme" "python").2 ∧
    llmPrompts (generateCodeLogic qenvA "gs" "Create Order" "codepilot_acme" "python").2 =
      [acPrompt "python" "Create Order with retries"] ∧
    llmPrompts
        (generateRefactoredCodeLogic qenvA "gs" "python" "x = 1" "use the api").2 ≠
      llmPrompts
        (generateRefactoredCodeLogic qenvB "gs" "python" "x = 1" "use the api").2 := by
  refine ⟨rfl, by decide, by decide⟩

end APICopilot
